import Mathlib

set_option maxRecDepth 10000

/-- Cells of the maze are (row, column) pairs of integers, 1-indexed. -/
abbrev Cell := Int × Int

/-- The four passage directions stored in the maze adjacency map. -/
inductive Direction where
  | E
  | W
  | N
  | S
deriving DecidableEq

/-- Fixed offset table used by get_possible_moves:
E maps to (0, 1), W to (0, -1), N to (-1, 0), S to (1, 0). -/
def directionMap : Direction → Int × Int
  | Direction.E => (0, 1)
  | Direction.W => (0, -1)
  | Direction.N => (-1, 0)
  | Direction.S => (1, 0)

/-- A maze as consumed by GameSearch: the row and column extents and the
per-cell adjacency entries, each a list of (direction, open-flag) pairs kept
in insertion order, mirroring the Python dict maze_map. -/
structure Maze where
  rows : Int
  cols : Int
  mazeMap : List (Cell × List (Direction × Nat))

/-- Lookup of the adjacency entry of a cell, mirroring maze_map.get(cell),
which yields None when the cell has no entry. -/
def mazeGet (mz : Maze) (c : Cell) : Option (List (Direction × Nat)) :=
  mz.mazeMap.lookup c

/-- Loop body of get_possible_moves: for an entry (direction, flag), when the
flag equals 1 the neighbor is computed from the offset table and appended to
the accumulator when it lies within [1, rows] x [1, cols]. -/
def moveStep (mz : Maze) (pos : Cell) (acc : List Cell) (dp : Direction × Nat) : List Cell :=
  if dp.2 = 1 then
    let off := directionMap dp.1
    let nr := pos.1 + off.1
    let nc := pos.2 + off.2
    if 1 ≤ nr ∧ nr ≤ mz.rows ∧ 1 ≤ nc ∧ nc ≤ mz.cols then acc ++ [(nr, nc)] else acc
  else acc

/-- GameSearch.get_possible_moves: when the cell has no entry the Python code
evaluates dict(None), which raises a TypeError, modelled as none; otherwise it
returns the in-bounds neighbors reached through open passages, in entry
order. -/
def get_possible_moves (mz : Maze) (pos : Cell) : Option (List Cell) :=
  match mazeGet mz pos with
  | none => none
  | some dirs => some (dirs.foldl (moveStep mz pos) [])

/-- GameSearch.utility_function: 1 when the player sits on the goal, else -1
when the opponent sits on the goal, else 0. -/
def utility_function (goal p o : Cell) : Int :=
  if p = goal then 1 else if o = goal then -1 else 0

/-- GameSearch.is_terminal: true when the player or the opponent sits on the
goal. -/
def is_terminal (goal p o : Cell) : Bool :=
  p == goal || o == goal

/-- The fixed depth bound self.MAX_DEPTH. -/
def MAX_DEPTH : Nat := 5

/-- Values flowing through the search: the integers produced by
utility_function together with the two float infinities used as fold
seeds. -/
inductive EVal where
  | negInf
  | fin (n : Int)
  | posInf
deriving DecidableEq

/-- Comparison on search values, matching the float order used by Python. -/
def EVal.ble : EVal → EVal → Bool
  | EVal.negInf, _ => true
  | _, EVal.posInf => true
  | EVal.posInf, _ => false
  | EVal.fin a, EVal.fin b => decide (a ≤ b)
  | EVal.fin _, EVal.negInf => false

/-- Python max on two search values (returns the first argument on ties). -/
def EVal.maxE (a b : EVal) : EVal :=
  if EVal.ble b a then a else b

/-- Python min on two search values (returns the first argument on ties). -/
def EVal.minE (a b : EVal) : EVal :=
  if EVal.ble a b then a else b

/-- GameSearch.minimax, with an explicit fuel argument making the recursion
structural; the wrapper below supplies fuel MAX_DEPTH + 1 - depth, which never
runs out on calls with depth at most MAX_DEPTH, the only calls the program
makes. The result none models a raised exception. On a maximizing ply the
code folds max over the moves of the player, substituting the player
position; on a minimizing ply it folds min over the moves enumerated from the
player position as well (the source passes player to get_possible_moves in
both branches), substituting the opponent position. An empty move list leaves
the fold seed, negInf or posInf, as the returned value. -/
def minimaxF (mz : Maze) (goal : Cell) : Nat → Cell → Cell → Nat → Bool → Option EVal
  | 0, _, _, _, _ => none
  | fuel + 1, p, o, depth, isMax =>
    if depth = MAX_DEPTH || is_terminal goal p o then
      some (EVal.fin (utility_function goal p o))
    else
      match get_possible_moves mz p with
      | none => none
      | some moves =>
        if isMax then
          moves.foldl (fun acc m =>
            match acc, minimaxF mz goal fuel m o (depth + 1) false with
            | some a, some v => some (EVal.maxE a v)
            | _, _ => none) (some EVal.negInf)
        else
          moves.foldl (fun acc m =>
            match acc, minimaxF mz goal fuel p m (depth + 1) true with
            | some a, some v => some (EVal.minE a v)
            | _, _ => none) (some EVal.posInf)

/-- GameSearch.minimax at a given depth: all executions of the source start
at depth 0 and increase the depth by one per ply, so MAX_DEPTH + 1 - depth
fuel always suffices. -/
def minimax (mz : Maze) (goal p o : Cell) (depth : Nat) (isMax : Bool) : Option EVal :=
  minimaxF mz goal (MAX_DEPTH + 1 - depth) p o depth isMax

/-- Possible outcomes of GameSearch.alpha_beta_pruning: a raised exception
(crash), the Python value None produced by falling off the maximizing branch
without a return statement, or a proper value. -/
inductive ABRes where
  | crash
  | noneVal
  | val (v : EVal)
deriving DecidableEq

/-- GameSearch.alpha_beta_pruning with explicit fuel. In the maximizing
branch the source has the return statement inside the loop: the first
candidate is evaluated, then either the cutoff test beta ≤ max(alpha, e)
breaks out of the loop (falling through and returning None, modelled as
noneVal) or max_eval is returned at once; an empty move list also falls
through to None. A recursive result that is not a proper value makes
float(...) or the min comparison raise, modelled as crash. The minimizing
branch folds min over the moves enumerated from the player position (as in
the source), substituting the opponent, updating beta, and returning the
running minimum when beta ≤ alpha fires or the list is exhausted. -/
def alphaBetaF (mz : Maze) (goal : Cell) :
    Nat → Cell → Cell → Nat → EVal → EVal → Bool → ABRes
  | 0, _, _, _, _, _, _ => ABRes.crash
  | fuel + 1, p, o, depth, alpha, beta, isMax =>
    if depth = MAX_DEPTH || is_terminal goal p o then
      ABRes.val (EVal.fin (utility_function goal p o))
    else
      match get_possible_moves mz p with
      | none => ABRes.crash
      | some moves =>
        if isMax then
          match moves with
          | [] => ABRes.noneVal
          | m :: _ =>
            match alphaBetaF mz goal fuel m o (depth + 1) alpha beta false with
            | ABRes.val e =>
              if EVal.ble beta (EVal.maxE alpha e) then ABRes.noneVal
              else ABRes.val (EVal.maxE EVal.negInf e)
            | _ => ABRes.crash
        else
          match moves.foldl (fun st m =>
            match st with
            | Sum.inr r => Sum.inr r
            | Sum.inl ab =>
              match alphaBetaF mz goal fuel p m (depth + 1) alpha ab.2 true with
              | ABRes.val e =>
                let acc2 := EVal.minE ab.1 e
                let beta2 := EVal.minE ab.2 e
                if EVal.ble beta2 alpha then Sum.inr (ABRes.val acc2)
                else Sum.inl (acc2, beta2)
              | _ => Sum.inr ABRes.crash) (Sum.inl (EVal.posInf, beta)) with
          | Sum.inl ab => ABRes.val ab.1
          | Sum.inr r => r

/-- GameSearch.alpha_beta_pruning at a given depth, fuelled like minimax. -/
def alpha_beta_pruning (mz : Maze) (goal p o : Cell) (depth : Nat)
    (alpha beta : EVal) (isMax : Bool) : ABRes :=
  alphaBetaF mz goal (MAX_DEPTH + 1 - depth) p o depth alpha beta isMax

/-- Possible outcomes of GameSearch.find_best_move: the ValueError raised on
an unknown algorithm tag, any other raised exception (a TypeError from a
failed lookup, a None comparison or a crashed search), or a normal return
carrying the best move found, if any. -/
inductive FBRes where
  | unknownAlgo
  | typeErr
  | ok (c : Option Cell)
deriving DecidableEq

/-- Loop of GameSearch.find_best_move over the candidate moves: each
iteration re-runs the chosen search on the unchanged (player, opponent) root
state (the source never substitutes the candidate into the call), keeps the
candidate when the value strictly improves on the best so far, and raises
ValueError on an unknown tag before any search call of that iteration. -/
def fbLoop (mz : Maze) (goal p o : Cell) (alg : String) :
    List Cell → EVal → Option Cell → FBRes
  | [], _, best => FBRes.ok best
  | m :: rest, bestVal, best =>
    if alg = "MM" then
      match minimax mz goal p o 0 false with
      | none => FBRes.typeErr
      | some v =>
        if EVal.ble v bestVal then fbLoop mz goal p o alg rest bestVal best
        else fbLoop mz goal p o alg rest v (some m)
    else if alg = "AB" then
      match alpha_beta_pruning mz goal p o 0 EVal.negInf EVal.posInf false with
      | ABRes.val v =>
        if EVal.ble v bestVal then fbLoop mz goal p o alg rest bestVal best
        else fbLoop mz goal p o alg rest v (some m)
      | _ => FBRes.typeErr
    else FBRes.unknownAlgo

/-- GameSearch.find_best_move: enumerate the moves of the player (a failed
lookup raises), then run the candidate loop starting from best_val = -inf
and best_move = None. -/
def find_best_move (mz : Maze) (goal p o : Cell) (alg : String) : FBRes :=
  match get_possible_moves mz p with
  | none => FBRes.typeErr
  | some moves => fbLoop mz goal p o alg moves EVal.negInf none

/-- Modelled from the spec: minimax per section 4.3 of the specification,
which enumerates moves from the position belonging to the side whose turn it
is (the player position when maximizing, the opponent position when
minimizing), substitutes that side, and treats an empty move list as a dead
end scored by the utility of the current state. The result none models the
propagated lookup error of a cell without an entry. -/
def minimaxSpecF (mz : Maze) (goal : Cell) : Nat → Cell → Cell → Nat → Bool → Option EVal
  | 0, _, _, _, _ => none
  | fuel + 1, p, o, depth, isMax =>
    if depth = MAX_DEPTH || is_terminal goal p o then
      some (EVal.fin (utility_function goal p o))
    else
      match get_possible_moves mz (if isMax then p else o) with
      | none => none
      | some moves =>
        match moves with
        | [] => some (EVal.fin (utility_function goal p o))
        | _ :: _ =>
          if isMax then
            moves.foldl (fun acc m =>
              match acc, minimaxSpecF mz goal fuel m o (depth + 1) false with
              | some a, some v => some (EVal.maxE a v)
              | _, _ => none) (some EVal.negInf)
          else
            moves.foldl (fun acc m =>
              match acc, minimaxSpecF mz goal fuel p m (depth + 1) true with
              | some a, some v => some (EVal.minE a v)
              | _, _ => none) (some EVal.posInf)

/-- Modelled from the spec: the wrapper supplying the fuel for the bounded
recursion of the specification minimax. -/
def minimaxSpec (mz : Maze) (goal p o : Cell) (depth : Nat) (isMax : Bool) : Option EVal :=
  minimaxSpecF mz goal (MAX_DEPTH + 1 - depth) p o depth isMax

/-- Modelled from the spec: the candidate loop of find_best_move per section
4.5, evaluating each candidate with the acting side position replaced by that
candidate, from the opponent turn at depth 0, tracking the maximum and
keeping the first candidate on ties. -/
def fbSpecLoop (mz : Maze) (goal o : Cell) :
    List Cell → EVal → Option Cell → Option (Option Cell)
  | [], _, best => some best
  | c :: rest, bestVal, best =>
    match minimaxSpec mz goal c o 0 false with
    | none => none
    | some v =>
      if EVal.ble v bestVal then fbSpecLoop mz goal o rest bestVal best
      else fbSpecLoop mz goal o rest v (some c)

/-- Modelled from the spec: find_best_move per section 4.5, returning the
winning candidate cell, or none inside when the candidate list is empty; the
outer none models a propagated lookup error. -/
def findBestMoveSpec (mz : Maze) (goal p o : Cell) : Option (Option Cell) :=
  match get_possible_moves mz p with
  | none => none
  | some moves => fbSpecLoop mz goal o moves EVal.negInf none

/-- Bounds predicate of the enumeration claim: the cell lies within
[1, rows] x [1, cols]. -/
def within_bounds (mz : Maze) (c : Cell) : Prop :=
  1 ≤ c.1 ∧ c.1 ≤ mz.rows ∧ 1 ≤ c.2 ∧ c.2 ≤ mz.cols

/-- Unit-step predicate of the enumeration claim: the second cell differs
from the first by exactly one unit in exactly one axis. -/
def unit_step (c c2 : Cell) : Prop :=
  (c2.1 = c.1 ∧ (c2.2 = c.2 + 1 ∨ c2.2 = c.2 - 1)) ∨
  (c2.2 = c.2 ∧ (c2.1 = c.1 + 1 ∨ c2.1 = c.1 - 1))

/-- A 1 x 3 corridor whose middle cell opens west and east; only the middle
cell needs an entry because the search below it bottoms out at MAX_DEPTH. -/
def mzC1 : Maze :=
  ⟨1, 3, [((1, 2), [(Direction.W, 1), (Direction.E, 1)])]⟩

/-- A 2 x 2 grid where (1, 1) and (2, 1) each open east. -/
def mzC2 : Maze :=
  ⟨2, 2, [((1, 1), [(Direction.E, 1)]), ((2, 1), [(Direction.E, 1)])]⟩

/-- A fully connected 1 x 3 corridor. -/
def mzC3 : Maze :=
  ⟨1, 3, [((1, 1), [(Direction.E, 1)]),
          ((1, 2), [(Direction.W, 1), (Direction.E, 1)]),
          ((1, 3), [(Direction.W, 1)])]⟩

/-- A 1 x 1 maze whose only cell has an east flag leading out of bounds, so
its move list is empty. -/
def mzC4 : Maze :=
  ⟨1, 1, [((1, 1), [(Direction.E, 1)])]⟩

/-- A 1 x 2 maze where (1, 1) opens east, giving a nonempty move list. -/
def mzC6a : Maze :=
  ⟨1, 2, [((1, 1), [(Direction.E, 1)])]⟩

/-- A 1 x 1 maze whose only cell has an empty adjacency entry. -/
def mzC6b : Maze :=
  ⟨1, 1, [((1, 1), ([] : List (Direction × Nat)))]⟩

/-- Every element of moveStep applied to an accumulator is either an element
of the accumulator or an in-bounds unit-step neighbor of the queried cell. -/
lemma mem_moveStep (mz : Maze) (pos : Cell) (acc : List Cell) (dp : Direction × Nat)
    (x : Cell) (hx : x ∈ moveStep mz pos acc dp) :
    x ∈ acc ∨ (within_bounds mz x ∧ unit_step pos x) := by
  obtain ⟨d, fl⟩ := dp
  unfold moveStep at hx
  split at hx
  · cases d <;> simp only [directionMap] at hx <;> split at hx <;>
      first
        | exact Or.inl hx
        | (rename_i hb
           rcases List.mem_append.mp hx with h | h
           · exact Or.inl h
           · simp only [List.mem_singleton] at h
             subst h
             refine Or.inr ⟨?_, ?_⟩ <;> simp [within_bounds, unit_step] <;> omega)
  · exact Or.inl hx

/-- The fold of moveStep preserves the in-bounds unit-step invariant of the
accumulator. -/
lemma fold_moves_sound (mz : Maze) (pos : Cell) :
    ∀ (dirs : List (Direction × Nat)) (acc : List Cell),
      (∀ x ∈ acc, within_bounds mz x ∧ unit_step pos x) →
      ∀ x ∈ dirs.foldl (moveStep mz pos) acc, within_bounds mz x ∧ unit_step pos x := by
  intro dirs
  induction dirs with
  | nil => intro acc hacc x hx; exact hacc x (by simpa using hx)
  | cons dp rest ih =>
    intro acc hacc x hx
    rw [List.foldl_cons] at hx
    refine ih _ ?_ x hx
    intro y hy
    rcases mem_moveStep mz pos acc dp y hy with h | h
    · exact hacc y h
    · exact h

/-- With a supported algorithm tag the candidate loop of find_best_move never
raises the unknown-algorithm error. -/
lemma fbLoop_supported_ne_unknown (mz : Maze) (goal p o : Cell) (alg : String)
    (halg : alg = "MM" ∨ alg = "AB") :
    ∀ (l : List Cell) (bv : EVal) (b : Option Cell),
      fbLoop mz goal p o alg l bv b ≠ FBRes.unknownAlgo := by
  intro l
  induction l with
  | nil =>
    intro bv b h
    simp only [fbLoop] at h
    exact FBRes.noConfusion h
  | cons m rest ih =>
    intro bv b h
    simp only [fbLoop] at h
    split at h
    · split at h
      · exact FBRes.noConfusion h
      · split at h
        · exact ih _ _ h
        · exact ih _ _ h
    · split at h
      · split at h
        · split at h
          · exact ih _ _ h
          · exact ih _ _ h
        · exact FBRes.noConfusion h
      · rcases halg with h1 | h1 <;> simp_all

/-- C1: the claim states that alpha_beta_pruning started with alpha = -inf
and beta = +inf always agrees with minimax; the code violates it because the
maximizing branch returns after its first candidate. At the maximizing state
player (1, 2), opponent (1, 1), depth 4 in the corridor mzC1 with goal
(1, 3), minimax returns 1 but alpha_beta_pruning returns 0. -/
theorem c1_alpha_beta_pruning_diverges_from_minimax :
    minimax mzC1 (1, 3) (1, 2) (1, 1) 4 true = some (EVal.fin 1) ∧
      alpha_beta_pruning mzC1 (1, 3) (1, 2) (1, 1) 4 EVal.negInf EVal.posInf true =
        ABRes.val (EVal.fin 0) := by
  decide

/-- C2: the claim states that on a minimizing ply the candidate moves are
enumerated from the opponent position; the code enumerates them from the
player position in both branches. At the minimizing state player (1, 1),
opponent (2, 1), depth 4 in mzC2 with goal (2, 2), the code returns 0 (it
expands the player move list) while the expansion prescribed by the spec,
from the opponent position, yields -1. -/
theorem c2_min_ply_expanded_from_player_position :
    minimax mzC2 (2, 2) (1, 1) (2, 1) 4 false = some (EVal.fin 0) ∧
      minimaxSpec mzC2 (2, 2) (1, 1) (2, 1) 4 false = some (EVal.fin (-1)) := by
  decide

/-- C3: the claim states that find_best_move evaluates each candidate with
the acting side position replaced by that candidate; the code never
substitutes the candidate, so every candidate receives the same value and the
first one is returned. In the corridor mzC3 with goal (1, 3), player (1, 2),
opponent (1, 1), the code returns (1, 1) while the selection prescribed by
the spec returns the winning candidate (1, 3). -/
theorem c3_find_best_move_ignores_candidate :
    find_best_move mzC3 (1, 3) (1, 2) (1, 1) "MM" = FBRes.ok (some (1, 1)) ∧
      findBestMoveSpec mzC3 (1, 3) (1, 2) (1, 1) = some (some (1, 3)) := by
  decide

/-- C4: the claim states that a non-terminal state below the cutoff whose
acting side has no moves is scored by the utility of the current state; the
code instead leaves the fold seed, so minimax returns the -inf sentinel and
alpha_beta_pruning falls through to None, although the utility of the state
is 0. -/
theorem c4_dead_end_returns_sentinel :
    minimax mzC4 (3, 3) (1, 1) (1, 1) 0 true = some EVal.negInf ∧
      alpha_beta_pruning mzC4 (3, 3) (1, 1) (1, 1) 0 EVal.negInf EVal.posInf true =
        ABRes.noneVal ∧
      utility_function (3, 3) (1, 1) (1, 1) = 0 := by
  decide

/-- C5: the claim states that minimax and alpha_beta_pruning always return a
value in the set of -1, 0, 1; at a minimizing dead end both return the +inf
fold seed instead. -/
theorem c5_value_outside_unit_range_on_dead_end :
    minimax mzC4 (3, 3) (1, 1) (1, 1) 0 false = some EVal.posInf ∧
      alpha_beta_pruning mzC4 (3, 3) (1, 1) (1, 1) 0 EVal.negInf EVal.posInf false =
        ABRes.val EVal.posInf := by
  decide

/-- C6 counterexample: the claim names the supported tag set as minimax and
alpha-beta and states that an unsupported tag always fails immediately; the
code supports exactly MM and AB, so the tag minimax raises the
unknown-algorithm error, and with an empty candidate list even a bogus tag
returns None without any error. -/
theorem c6_counterexample_tag_set :
    find_best_move mzC6a (5, 5) (1, 1) (1, 1) "minimax" = FBRes.unknownAlgo ∧
      find_best_move mzC6b (5, 5) (1, 1) (1, 1) "bogus" = FBRes.ok none := by
  decide

/-- C6 amended: find_best_move raises the unknown-algorithm error exactly
when the tag is outside the supported set of MM and AB and the move list of
the player is successfully enumerated and nonempty; with MM or AB that error
is never raised. -/
theorem c6_unsupported_algorithm_amended (mz : Maze) (goal p o : Cell) (alg : String) :
    find_best_move mz goal p o alg = FBRes.unknownAlgo ↔
      alg ≠ "MM" ∧ alg ≠ "AB" ∧
        ∃ ms, get_possible_moves mz p = some ms ∧ ms ≠ [] := by
  constructor
  · intro h
    unfold find_best_move at h
    cases hm : get_possible_moves mz p with
    | none => rw [hm] at h; exact absurd h (by simp)
    | some ms =>
      rw [hm] at h
      cases ms with
      | nil =>
        simp only [fbLoop] at h
        exact FBRes.noConfusion h
      | cons m rest =>
        by_cases h1 : alg = "MM"
        · exact absurd h (fbLoop_supported_ne_unknown mz goal p o alg (Or.inl h1) _ _ _)
        by_cases h2 : alg = "AB"
        · exact absurd h (fbLoop_supported_ne_unknown mz goal p o alg (Or.inr h2) _ _ _)
        exact ⟨h1, h2, m :: rest, rfl, by simp⟩
  · rintro ⟨h1, h2, ms, hms, hne⟩
    unfold find_best_move
    rw [hms]
    cases ms with
    | nil => exact absurd rfl hne
    | cons m rest =>
      simp only [fbLoop]
      rw [if_neg h1, if_neg h2]

/-- C6 witness: the amended characterization applied at a concrete bogus tag
with a nonempty candidate list. -/
theorem c6_unsupported_algorithm_amended_witness :
    find_best_move mzC6a (5, 5) (1, 1) (1, 1) "zz" = FBRes.unknownAlgo :=
  (c6_unsupported_algorithm_amended mzC6a (5, 5) (1, 1) (1, 1) "zz").mpr
    ⟨by decide, by decide, [(1, 2)], by decide, by decide⟩

/-- C7: the move-enumeration query fails (the Python code raises a TypeError
by building a dict from None) exactly on the cells the maze map has no entry
for, and succeeds on every cell that has an entry. -/
theorem c7_lookup_failure_iff_missing_entry (mz : Maze) (c : Cell) :
    get_possible_moves mz c = none ↔ mazeGet mz c = none := by
  unfold get_possible_moves
  cases h : mazeGet mz c <;> simp

/-- C7 witness: the characterization applied to a cell without an entry. -/
theorem c7_lookup_failure_witness :
    get_possible_moves mzC6a (3, 3) = none :=
  (c7_lookup_failure_iff_missing_entry mzC6a (3, 3)).mpr (by decide)

/-- C8: every cell returned by move enumeration on a cell with an entry lies
within [1, rows] x [1, cols] and differs from the queried cell by exactly one
unit step in exactly one axis. -/
theorem c8_enumeration_bounds (mz : Maze) (c : Cell) (l : List Cell)
    (h : get_possible_moves mz c = some l) :
    ∀ c2 ∈ l, within_bounds mz c2 ∧ unit_step c c2 := by
  unfold get_possible_moves at h
  cases hm : mazeGet mz c with
  | none => rw [hm] at h; exact absurd h (by simp)
  | some dirs =>
    rw [hm] at h
    injection h with h2
    intro c2 hc2
    exact fold_moves_sound mz c dirs [] (by simp) c2 (h2 ▸ hc2)

/-- C8 witness: the enumeration soundness applied to the east neighbor of
(1, 1) in mzC2. -/
theorem c8_enumeration_bounds_witness :
    within_bounds mzC2 (1, 2) ∧ unit_step (1, 1) (1, 2) :=
  c8_enumeration_bounds mzC2 (1, 1) [(1, 2)] (by decide) (1, 2) (by decide)

/-- C9: is_terminal holds exactly when the player or the opponent sits on the
goal, and utility_function returns 1 exactly when the player is at the goal,
-1 exactly when the opponent alone is at the goal, and 0 exactly when neither
is. -/
theorem c9_terminal_and_utility (g p o : Cell) :
    (is_terminal g p o = true ↔ p = g ∨ o = g) ∧
      (utility_function g p o = 1 ↔ p = g) ∧
      (utility_function g p o = -1 ↔ o = g ∧ p ≠ g) ∧
      (utility_function g p o = 0 ↔ p ≠ g ∧ o ≠ g) := by
  by_cases h1 : p = g <;> by_cases h2 : o = g <;>
    simp [is_terminal, utility_function, h1, h2]

/-- C9 witness: the characterization applied at concrete positions with the
player on the goal. -/
theorem c9_terminal_and_utility_witness :
    utility_function (1, 1) (1, 1) (2, 2) = 1 :=
  (c9_terminal_and_utility (1, 1) (1, 1) (2, 2)).2.1.mpr rfl

/-- C10: when the player and the opponent sit on the goal simultaneously,
utility_function returns 1, the player branch taking precedence. -/
theorem c10_both_at_goal_utility (g : Cell) : utility_function g g g = 1 := by
  simp [utility_function]
